import Mathlib

/-!
Verification of the entity-construction logic of `rocketflightsim/rocket_classes.py`
(Motor, Rocket, LaunchConditions, Airbrakes).

Python dictionaries are modelled as insertion-ordered association lists over ℚ
(`List (ℚ × ℚ)`): `d[k]` is `dictLookup` (a missing key, Python's `KeyError`, is
`none`), and `d[k] = v` is `dictInsert` (overwrite in place, or append at the
end for a fresh key, exactly as CPython dicts behave). Machine floats are
modelled by exact rationals. Fallible construction returns `Option`.
-/

namespace RocketFlightSim

/-- `d[k]` on a Python dict: the value at the first matching key, `none` for a
missing key (Python raises `KeyError`). -/
def dictLookup (d : List (ℚ × ℚ)) (k : ℚ) : Option ℚ :=
  match d with
  | [] => none
  | (k', v) :: rest => if k' = k then some v else dictLookup rest k

/-- `d[k] = v` on a Python dict: overwrite in place if the key is present,
append at the end otherwise (CPython insertion order). -/
def dictInsert (d : List (ℚ × ℚ)) (k : ℚ) (v : ℚ) : List (ℚ × ℚ) :=
  match d with
  | [] => [(k, v)]
  | (k', v') :: rest => if k' = k then (k, v) :: rest else (k', v') :: dictInsert rest k v

/-- `np.trapz(list(d.values()), list(d.keys()))`: trapezoidal-rule integral of
the samples, `0` for fewer than two samples. -/
def trapz : List (ℚ × ℚ) → ℚ
  | (x0, y0) :: (x1, y1) :: rest => (y0 + y1) / 2 * (x1 - x0) + trapz ((x1, y1) :: rest)
  | _ => 0

/-- Python `max` over a list: `none` on the empty list (Python raises
`ValueError`). -/
def listMax : List ℚ → Option ℚ
  | [] => none
  | x :: xs => some (xs.foldl max x)

/-- Python truthiness of an optional dict argument: `None` and the empty dict
are falsy. -/
def truthyCurve : Option (List (ℚ × ℚ)) → Bool
  | none => false
  | some l => !l.isEmpty

/-- Python truthiness of an optional numeric argument: `None` and `0` are
falsy. -/
def truthyNum : Option ℚ → Bool
  | none => false
  | some x => decide (x ≠ 0)

/-- The attributes a constructed `Motor` stores. -/
structure Motor where
  dry_mass : ℚ
  thrust_curve : List (ℚ × ℚ)
  total_impulse : ℚ
  burn_time : ℚ
  fuel_mass_curve : List (ℚ × ℚ)
  fuel_mass : ℚ
  deriving DecidableEq

/-- The loop `for t in range(1, len(times)): self.fuel_mass_curve[times[t]] =
self.fuel_mass_curve[times[t-1]] - (thrust_curve[times[t]] +
thrust_curve[times[t-1]])/2 * (times[t] - times[t-1]) / self.total_impulse *
fuel_mass`, with `tprev = times[t-1]` carried explicitly and any missing-key
lookup (Python `KeyError`) aborting with `none`. -/
def depletionGo (tc : List (ℚ × ℚ)) (I fm : ℚ) :
    ℚ → List ℚ → List (ℚ × ℚ) → Option (List (ℚ × ℚ))
  | _, [], fuel => some fuel
  | tprev, tcur :: rest, fuel =>
    match dictLookup fuel tprev, dictLookup tc tcur, dictLookup tc tprev with
    | some prev, some thc, some thp =>
        depletionGo tc I fm tcur rest
          (dictInsert fuel tcur (prev - (thc + thp) / 2 * (tcur - tprev) / I * fm))
    | _, _, _ => none

/-- Branch 2 of `Motor.__init__`: seed `self.fuel_mass_curve = {0: fuel_mass}`
and run the depletion loop over `times = list(self.thrust_curve.keys())`. -/
def depletionLoop (tc : List (ℚ × ℚ)) (I fm : ℚ) : Option (List (ℚ × ℚ)) :=
  match tc.map Prod.fst with
  | [] => some (dictInsert [] 0 fm)
  | t0 :: rest => depletionGo tc I fm t0 rest (dictInsert [] 0 fm)

/-- `Motor.__init__(dry_mass, thrust_curve, fuel_mass_curve=None, fuel_mass=None)`:
`total_impulse` by `np.trapz`, `burn_time = max(thrust_curve.keys())`, then the
three-way truthiness branch on `fuel_mass_curve` / `fuel_mass`. `none` models a
Python exception escaping the constructor. -/
def motorInit (dry_mass : ℚ) (thrust_curve : List (ℚ × ℚ))
    (fuel_mass_curve : Option (List (ℚ × ℚ))) (fuel_mass : Option ℚ) : Option Motor :=
  match listMax (thrust_curve.map Prod.fst) with
  | none => none
  | some burn_time =>
    let total_impulse := trapz thrust_curve
    if truthyCurve fuel_mass_curve then
      let fmc := fuel_mass_curve.getD []
      match dictLookup fmc 0 with
      | none => none
      | some fm0 => some ⟨dry_mass, thrust_curve, total_impulse, burn_time, fmc, fm0⟩
    else if truthyNum fuel_mass then
      let fm := fuel_mass.getD 0
      match depletionLoop thrust_curve total_impulse fm with
      | none => none
      | some fmc => some ⟨dry_mass, thrust_curve, total_impulse, burn_time, fmc, fm⟩
    else
      some ⟨dry_mass, thrust_curve, total_impulse, burn_time,
            dictInsert (dictInsert [] 0 0) burn_time 0, 0⟩

/-- The worked example thrust curve `{0: 0, 1: 1000, 2: 500, 3: 0}` from the
specification. -/
def exTc : List (ℚ × ℚ) := [(0, 0), (1, 1000), (2, 500), (3, 0)]

/-- Strictly increasing time keys: consecutive keys of the curve increase. -/
def StrictKeys (l : List (ℚ × ℚ)) : Prop :=
  List.Chain' (· < ·) (l.map Prod.fst)

instance (l : List (ℚ × ℚ)) : Decidable (StrictKeys l) :=
  inferInstanceAs (Decidable (List.Chain' _ _))

/-- The specification's wording of the trapezoidal integral: the sum over
consecutive samples of `(thrust[t_i] + thrust[t_{i-1}]) / 2 * (t_i - t_{i-1})`. -/
def trapzSpecSum (tc : List (ℚ × ℚ)) : ℚ :=
  ((tc.zip tc.tail).map fun q => (q.2.2 + q.1.2) / 2 * (q.2.1 - q.1.1)).sum

/-- The fuel-mass samples appended by the depletion loop, rebuilt as a clean
recursion over the remaining thrust samples: from previous time/thrust
`(tp, thp)` and previous remaining mass `mp`, each sample `(tcur, thc)`
contributes remaining mass `mp - (thc + thp)/2 * (tcur - tp) / I * fm`. -/
def fuelSteps (I fm : ℚ) : ℚ × ℚ → ℚ → List (ℚ × ℚ) → List (ℚ × ℚ)
  | _, _, [] => []
  | (tp, thp), mp, (tcur, thc) :: rest =>
    let m := mp - (thc + thp) / 2 * (tcur - tp) / I * fm
    (tcur, m) :: fuelSteps I fm (tcur, thc) m rest

/-- `Cd_rocket_at_Ma` may be a constant or a function of Mach number; the
Python code distinguishes the two with `callable(...)`, modelled as a tagged
variant. -/
inductive CdSpec where
  | const : ℚ → CdSpec
  | func : (ℚ → ℚ) → CdSpec

/-- The attributes a constructed `Rocket` stores. -/
structure Rocket where
  rocket_mass : ℚ
  motor : Motor
  A_rocket : ℚ
  Cd_rocket_at_Ma : CdSpec
  h_second_rail_button : ℚ
  dry_mass : ℚ
  Cd_A_rocket : ℚ → ℚ

/-- `Rocket.__init__` (source defaults: `Cd_rocket_at_Ma = 0.45`,
`h_second_rail_button = 0.69`; arguments are passed explicitly here):
`dry_mass = rocket_mass + motor.dry_mass`, and the drag-area closure multiplies
the (possibly Mach-dependent) drag coefficient by `A_rocket`. -/
def rocketInit (rocket_mass : ℚ) (motor : Motor) (A_rocket : ℚ)
    (Cd_rocket_at_Ma : CdSpec) (h_second_rail_button : ℚ) : Rocket :=
  { rocket_mass := rocket_mass
    motor := motor
    A_rocket := A_rocket
    Cd_rocket_at_Ma := Cd_rocket_at_Ma
    h_second_rail_button := h_second_rail_button
    dry_mass := rocket_mass + motor.dry_mass
    Cd_A_rocket :=
      match Cd_rocket_at_Ma with
      | .func f => fun Ma => f Ma * A_rocket
      | .const c => fun _ => c * A_rocket }

/-- Modelled from the spec: `constants.F_gravity`, the standard global
gravitational constant 9.80665 m/s² (the constants module is outside `src/`). -/
def F_gravity : ℚ := 980665 / 100000

/-- Modelled from the spec: `constants.T_lapse_rate`, the standard-atmosphere
temperature lapse rate -0.0065 K/m (the constants module is outside `src/`). -/
def T_lapse_rate : ℚ := -(65 / 10000)

/-- The attributes a constructed `LaunchConditions` stores. -/
structure LaunchConditions where
  launchpad_pressure : ℚ
  launchpad_temp : ℚ
  L_launch_rail : ℚ
  launch_rail_elevation : ℚ
  launch_rail_direction : ℚ
  local_T_lapse_rate : ℚ
  local_gravity : ℚ
  mean_wind_speed : ℚ
  wind_heading : ℚ

/-- `LaunchConditions.__init__`. The gravity-from-latitude-and-altitude helper
`hfunc.get_local_gravity` is an external collaborator (outside `src/`), passed
in as the function argument `get_local_gravity`. Source defaults (arguments are
passed explicitly here): `launch_rail_elevation = 90`,
`launch_rail_direction = 0`, `local_gravity = None`,
`local_T_lapse_rate = T_lapse_rate`, `latitude = None`, `altitude = 0`,
`mean_wind_speed = 0`, `wind_heading = 0`. Temperature is converted from
Celsius to Kelvin by adding 273.15. -/
def launchConditionsInit (get_local_gravity : ℚ → ℚ → ℚ)
    (launchpad_pressure launchpad_temp L_launch_rail : ℚ)
    (launch_rail_elevation launch_rail_direction : ℚ)
    (local_gravity : Option ℚ) (local_T_lapse_rate : ℚ)
    (latitude : Option ℚ) (altitude : ℚ)
    (mean_wind_speed wind_heading : ℚ) : LaunchConditions :=
  { launchpad_pressure := launchpad_pressure
    launchpad_temp := launchpad_temp + 27315 / 100
    L_launch_rail := L_launch_rail
    launch_rail_elevation := launch_rail_elevation
    launch_rail_direction := launch_rail_direction
    local_T_lapse_rate := local_T_lapse_rate
    local_gravity :=
      if truthyNum local_gravity then local_gravity.getD 0
      else if truthyNum latitude then get_local_gravity (latitude.getD 0) altitude
      else F_gravity
    mean_wind_speed := mean_wind_speed
    wind_heading := wind_heading }

/-- The attributes a constructed `Airbrakes` stores. -/
structure Airbrakes where
  num_flaps : ℤ
  A_flap : ℚ
  Cd_brakes : ℚ
  max_deployment_rate : ℚ
  max_deployment_angle : ℚ
  max_retraction_rate : ℚ

/-- `Airbrakes.__init__` (source default: `max_retraction_rate = None`):
`max_retraction_rate` is the supplied value when truthy and
`max_deployment_rate` otherwise. -/
def airbrakesInit (num_flaps : ℤ)
    (A_flap Cd_brakes max_deployment_angle max_deployment_rate : ℚ)
    (max_retraction_rate : Option ℚ) : Airbrakes :=
  { num_flaps := num_flaps
    A_flap := A_flap
    Cd_brakes := Cd_brakes
    max_deployment_rate := max_deployment_rate
    max_deployment_angle := max_deployment_angle
    max_retraction_rate :=
      if truthyNum max_retraction_rate then max_retraction_rate.getD 0
      else max_deployment_rate }

/-- `PastFlight`: an inert record with no derived computation. -/
structure PastFlight where
  rocket : Rocket
  launch_conditions : LaunchConditions
  apogee : Option ℚ
  name : Option String

section DictLemmas

theorem dictLookup_dictInsert_self (d : List (ℚ × ℚ)) (k v : ℚ) :
    dictLookup (dictInsert d k v) k = some v := by
  induction d with
  | nil => simp [dictInsert, dictLookup]
  | cons p rest ih =>
    by_cases h : p.1 = k
    · simp [dictInsert, dictLookup, h]
    · simp [dictInsert, dictLookup, h, ih]

theorem dictInsert_of_not_mem {d : List (ℚ × ℚ)} {k : ℚ} (v : ℚ)
    (h : k ∉ d.map Prod.fst) : dictInsert d k v = d ++ [(k, v)] := by
  induction d with
  | nil => simp [dictInsert]
  | cons p rest ih =>
    simp only [List.map_cons, List.mem_cons, not_or] at h
    have hk : p.1 ≠ k := fun hk => h.1 hk.symm
    simp [dictInsert, hk, ih h.2]

theorem dictLookup_append_of_not_mem {d : List (ℚ × ℚ)} {k : ℚ}
    (l₂ : List (ℚ × ℚ)) (h : k ∉ d.map Prod.fst) :
    dictLookup (d ++ l₂) k = dictLookup l₂ k := by
  induction d with
  | nil => simp
  | cons p rest ih =>
    simp only [List.map_cons, List.mem_cons, not_or] at h
    have hk : p.1 ≠ k := fun hk => h.1 hk.symm
    simp [dictLookup, hk, ih h.2]

theorem dictLookup_of_mem_of_nodup {d : List (ℚ × ℚ)} {k v : ℚ}
    (hnd : (d.map Prod.fst).Nodup) (hmem : (k, v) ∈ d) :
    dictLookup d k = some v := by
  induction d with
  | nil => simp at hmem
  | cons p rest ih =>
    simp only [List.map_cons, List.nodup_cons] at hnd
    rcases List.mem_cons.1 hmem with h | h
    · simp [dictLookup, ← h]
    · have hk : p.1 ≠ k := by
        intro hk
        exact hnd.1 (hk ▸ List.mem_map_of_mem Prod.fst h)
      simp [dictLookup, hk, ih hnd.2 h]

theorem dictLookup_isSome_iff {d : List (ℚ × ℚ)} {k : ℚ} :
    (dictLookup d k).isSome = true ↔ k ∈ d.map Prod.fst := by
  induction d with
  | nil => simp [dictLookup]
  | cons p rest ih =>
    by_cases h : p.1 = k
    · simp [dictLookup, h]
    · have hk : ¬k = p.1 := fun hk => h hk.symm
      simp [dictLookup, h, ih, hk]

theorem map_fst_getD (l : List (ℚ × ℚ)) (i : ℕ) (d : ℚ × ℚ) :
    (l.map Prod.fst).getD i d.1 = (l.getD i d).1 := by
  induction l generalizing i with
  | nil => simp
  | cons p rest ih =>
    cases i with
    | zero => simp
    | succ j => simp [ih j]

theorem dictLookup_getD_of_nodup {l : List (ℚ × ℚ)}
    (hnd : (l.map Prod.fst).Nodup) {i : ℕ} (hi : i < l.length) (d : ℚ × ℚ) :
    dictLookup l ((l.getD i d).1) = some ((l.getD i d).2) := by
  have hmem : l.getD i d ∈ l := by
    rw [List.getD_eq_getElem l d hi]
    exact List.getElem_mem hi
  exact dictLookup_of_mem_of_nodup hnd (by simpa using hmem)

end DictLemmas

section LoopLemmas

theorem fuelSteps_map_fst (I fm : ℚ) :
    ∀ (ps : List (ℚ × ℚ)) (tp yp mp : ℚ),
      (fuelSteps I fm (tp, yp) mp ps).map Prod.fst = ps.map Prod.fst := by
  intro ps
  induction ps with
  | nil => intro tp yp mp; simp [fuelSteps]
  | cons p rest ih =>
    intro tp yp mp
    simp [fuelSteps, ih]

theorem fuelSteps_length (I fm : ℚ) (ps : List (ℚ × ℚ)) (tp yp mp : ℚ) :
    (fuelSteps I fm (tp, yp) mp ps).length = ps.length := by
  have := fuelSteps_map_fst I fm ps tp yp mp
  simpa using congrArg List.length this

/-- The main correctness lemma for the depletion loop: starting from a fuel
dict `fuel` whose entry at the previous time `tp` is `mp`, over remaining
thrust samples `ps` whose keys are fresh for `fuel` and mutually distinct, the
loop succeeds and appends exactly the `fuelSteps` samples. -/
theorem depletionGo_eq (tc : List (ℚ × ℚ)) (I fm : ℚ) :
    ∀ (ps : List (ℚ × ℚ)) (tp yp mp : ℚ) (fuel : List (ℚ × ℚ)),
      (∀ p ∈ ps, dictLookup tc p.1 = some p.2) →
      dictLookup tc tp = some yp →
      dictLookup fuel tp = some mp →
      (∀ p ∈ ps, p.1 ∉ fuel.map Prod.fst) →
      (ps.map Prod.fst).Nodup →
      depletionGo tc I fm tp (ps.map Prod.fst) fuel =
        some (fuel ++ fuelSteps I fm (tp, yp) mp ps) := by
  intro ps
  induction ps with
  | nil =>
    intro tp yp mp fuel _ _ _ _ _
    simp [depletionGo, fuelSteps]
  | cons p rest ih =>
    intro tp yp mp fuel hlook hp hfuel hfresh hnd
    obtain ⟨t1, y1⟩ := p
    simp only [List.map_cons] at hnd
    have hnd1 := List.nodup_cons.1 hnd
    have hl1 : dictLookup tc t1 = some y1 := hlook (t1, y1) (List.mem_cons_self _ _)
    have hnew : t1 ∉ fuel.map Prod.fst := hfresh (t1, y1) (List.mem_cons_self _ _)
    simp only [List.map_cons, depletionGo, hfuel, hl1, hp]
    rw [dictInsert_of_not_mem _ hnew]
    rw [ih t1 y1 (mp - (y1 + yp) / 2 * (t1 - tp) / I * fm) _
      (fun q hq => hlook q (List.mem_cons_of_mem _ hq)) hl1
      (by
        rw [dictLookup_append_of_not_mem _ hnew]
        simp [dictLookup])
      (by
        intro q hq
        simp only [List.map_append, List.map_cons, List.map_nil, List.mem_append,
          List.mem_singleton, not_or]
        refine ⟨hfresh q (List.mem_cons_of_mem _ hq), ?_⟩
        exact fun hq1 => hnd1.1 (hq1 ▸ List.mem_map_of_mem Prod.fst hq)
      )
      hnd1.2]
    simp [fuelSteps]

/-- If every time to visit is a key of the thrust dict and the previous time is
a key of both dicts, the depletion loop cannot hit a missing key. -/
theorem depletionGo_isSome (tc : List (ℚ × ℚ)) (I fm : ℚ) :
    ∀ (times : List ℚ) (tp : ℚ) (fuel : List (ℚ × ℚ)),
      (∀ t ∈ times, t ∈ tc.map Prod.fst) →
      tp ∈ tc.map Prod.fst →
      tp ∈ fuel.map Prod.fst →
      (depletionGo tc I fm tp times fuel).isSome = true := by
  intro times
  induction times with
  | nil => intro tp fuel _ _ _; simp [depletionGo]
  | cons t1 rest ih =>
    intro tp fuel htimes htp hfp
    obtain ⟨mp, hmp⟩ := Option.isSome_iff_exists.1 (dictLookup_isSome_iff.2 hfp)
    obtain ⟨yp, hyp⟩ := Option.isSome_iff_exists.1 (dictLookup_isSome_iff.2 htp)
    have ht1 : t1 ∈ tc.map Prod.fst := htimes t1 (List.mem_cons_self _ _)
    obtain ⟨y1, hy1⟩ := Option.isSome_iff_exists.1 (dictLookup_isSome_iff.2 ht1)
    simp only [depletionGo, hmp, hy1, hyp]
    exact ih t1 _ (fun t ht => htimes t (List.mem_cons_of_mem _ ht)) ht1
      (dictLookup_isSome_iff.1 (by simp [dictLookup_dictInsert_self]))

theorem trapz_eq_trapzSpecSum : ∀ l : List (ℚ × ℚ), trapz l = trapzSpecSum l := by
  intro l
  match l with
  | [] => simp [trapz, trapzSpecSum]
  | [p] => simp [trapz, trapzSpecSum]
  | (x0, y0) :: (x1, y1) :: rest =>
    have ih := trapz_eq_trapzSpecSum ((x1, y1) :: rest)
    simp only [trapz, trapzSpecSum, List.tail_cons, List.zip_cons_cons,
      List.map_cons, List.sum_cons] at ih ⊢
    rw [ih]
    ring_nf

theorem trapz_nonneg : ∀ l : List (ℚ × ℚ),
    List.Chain' (· < ·) (l.map Prod.fst) → (∀ p ∈ l, 0 ≤ p.2) → 0 ≤ trapz l := by
  intro l
  match l with
  | [] => intro _ _; simp [trapz]
  | [p] => intro _ _; simp [trapz]
  | (x0, y0) :: (x1, y1) :: rest =>
    intro hch hv
    have ih := trapz_nonneg ((x1, y1) :: rest)
      (by simpa using (List.chain'_cons.1 (by simpa using hch)).2)
      (fun p hp => hv p (List.mem_cons_of_mem _ hp))
    have hx : x0 < x1 := (List.chain'_cons.1 (by simpa using hch)).1
    have hy0 : 0 ≤ y0 := hv (x0, y0) (by simp)
    have hy1 : 0 ≤ y1 := hv (x1, y1) (by simp)
    have hterm : 0 ≤ (y0 + y1) / 2 * (x1 - x0) := by
      apply mul_nonneg (by linarith) (by linarith)
    simp only [trapz]
    linarith

theorem le_foldl_max (xs : List ℚ) : ∀ x : ℚ, x ≤ xs.foldl max x := by
  induction xs with
  | nil => intro x; simp
  | cons y ys ih =>
    intro x
    calc x ≤ max x y := le_max_left x y
    _ ≤ ys.foldl max (max x y) := ih (max x y)

theorem foldl_max_le_of_mem (xs : List ℚ) :
    ∀ (x y : ℚ), y ∈ xs → y ≤ xs.foldl max x := by
  induction xs with
  | nil => intro x y hy; simp at hy
  | cons z zs ih =>
    intro x y hy
    rcases List.mem_cons.1 hy with h | h
    · subst h
      calc y ≤ max x y := le_max_right x y
      _ ≤ zs.foldl max (max x y) := le_foldl_max zs _
    · exact ih (max x z) y h

theorem foldl_max_mem (xs : List ℚ) :
    ∀ x : ℚ, xs.foldl max x = x ∨ xs.foldl max x ∈ xs := by
  induction xs with
  | nil => intro x; simp
  | cons y ys ih =>
    intro x
    rcases ih (max x y) with h | h
    · rcases max_choice x y with hm | hm
      · left
        rw [List.foldl_cons, hm]
        rw [hm] at h
        exact h
      · right
        rw [List.foldl_cons, hm]
        rw [hm] at h
        rw [h]
        exact List.mem_cons_self _ _
    · right
      rw [List.foldl_cons]
      exact List.mem_cons_of_mem _ h

theorem listMax_spec {l : List ℚ} {m : ℚ} (h : listMax l = some m) :
    m ∈ l ∧ ∀ x ∈ l, x ≤ m := by
  match l with
  | [] => simp [listMax] at h
  | x :: xs =>
    simp only [listMax, Option.some.injEq] at h
    subst h
    constructor
    · rcases foldl_max_mem xs x with h | h
      · rw [h]; exact List.mem_cons_self _ _
      · exact List.mem_cons_of_mem _ h
    · intro y hy
      rcases List.mem_cons.1 hy with h | h
      · subst h; exact le_foldl_max xs y
      · exact foldl_max_le_of_mem xs x y h

theorem fuelSteps_getD_recurrence (I fm : ℚ) :
    ∀ (ps : List (ℚ × ℚ)) (t0 y0 m0 : ℚ) (i : ℕ),
      i + 1 < ((t0, y0) :: ps).length →
      (((t0, m0) :: fuelSteps I fm (t0, y0) m0 ps).getD (i + 1) (0, 0)).2 =
        (((t0, m0) :: fuelSteps I fm (t0, y0) m0 ps).getD i (0, 0)).2 -
          ((((t0, y0) :: ps).getD (i + 1) (0, 0)).2 +
              (((t0, y0) :: ps).getD i (0, 0)).2) / 2 *
            ((((t0, y0) :: ps).getD (i + 1) (0, 0)).1 -
              (((t0, y0) :: ps).getD i (0, 0)).1) / I * fm := by
  intro ps
  induction ps with
  | nil =>
    intro t0 y0 m0 i hi
    simp at hi
  | cons p rest ih =>
    intro t0 y0 m0 i hi
    obtain ⟨t1, y1⟩ := p
    cases i with
    | zero => simp [fuelSteps, List.getD]
    | succ j =>
      have hj : j + 1 < ((t1, y1) :: rest).length := by
        simpa using Nat.lt_of_succ_lt_succ hi
      simpa [fuelSteps, List.getD_cons_succ] using
        ih t1 y1 (m0 - (y1 + y0) / 2 * (t1 - t0) / I * fm) j hj

theorem fuelSteps_chain (I fm : ℚ) (hI : 0 < I) (hfm : 0 < fm) :
    ∀ (ps : List (ℚ × ℚ)) (tp yp mp : ℚ),
      0 ≤ yp → (∀ p ∈ ps, 0 ≤ p.2) →
      List.Chain' (· < ·) (tp :: ps.map Prod.fst) →
      List.Chain' (fun a b : ℚ × ℚ => b.2 ≤ a.2)
        ((tp, mp) :: fuelSteps I fm (tp, yp) mp ps) := by
  intro ps
  induction ps with
  | nil => intro tp yp mp _ _ _; simp [fuelSteps]
  | cons p rest ih =>
    intro tp yp mp hyp hvals hch
    obtain ⟨t1, y1⟩ := p
    simp only [List.map_cons] at hch
    have hch1 := List.chain'_cons.1 hch
    have hy1 : 0 ≤ y1 := hvals (t1, y1) (List.mem_cons_self _ _)
    have hstep : 0 ≤ (y1 + yp) / 2 * (t1 - tp) / I * fm := by
      apply mul_nonneg _ hfm.le
      apply div_nonneg _ hI.le
      apply mul_nonneg (by linarith) (by linarith [hch1.1])
    simp only [fuelSteps]
    refine List.chain'_cons.2 ⟨by simp; linarith, ?_⟩
    exact ih t1 y1 (mp - (y1 + yp) / 2 * (t1 - tp) / I * fm) hy1
      (fun q hq => hvals q (List.mem_cons_of_mem _ hq)) hch1.2

theorem truthyNum_some_iff {x : ℚ} : truthyNum (some x) = true ↔ x ≠ 0 := by
  simp [truthyNum]

/-- Whatever fuel arguments are given, a successfully constructed motor has
`total_impulse = np.trapz(...)` and `burn_time = max(thrust_curve.keys())`. -/
theorem motorInit_fields {dm : ℚ} {tc : List (ℚ × ℚ)}
    {fmc : Option (List (ℚ × ℚ))} {fm : Option ℚ} {m : Motor}
    (h : motorInit dm tc fmc fm = some m) :
    m.total_impulse = trapz tc ∧ listMax (tc.map Prod.fst) = some m.burn_time := by
  unfold motorInit at h
  cases hmax : listMax (tc.map Prod.fst) with
  | none => rw [hmax] at h; simp at h
  | some bt =>
    rw [hmax] at h
    simp only at h
    split at h
    · split at h
      · simp at h
      · rw [Option.some_inj] at h
        subst h
        exact ⟨rfl, rfl⟩
    · split at h
      · split at h
        · simp at h
        · rw [Option.some_inj] at h
          subst h
          exact ⟨rfl, rfl⟩
      · rw [Option.some_inj] at h
        subst h
        exact ⟨rfl, rfl⟩

/-- Characterization of the derived-fuel-curve branch: with no fuel-mass curve,
a truthy fuel mass, first thrust key exactly `0`, and strictly increasing keys,
construction succeeds and yields `(0, fm)` followed by the `fuelSteps`
samples. -/
theorem motorInit_derived_curve (dm fm y0 : ℚ) (ps : List (ℚ × ℚ))
    (hsk : StrictKeys ((0, y0) :: ps)) (hfm : fm ≠ 0) :
    motorInit dm ((0, y0) :: ps) none (some fm) =
      some ⟨dm, (0, y0) :: ps, trapz ((0, y0) :: ps),
        (ps.map Prod.fst).foldl max 0,
        (0, fm) :: fuelSteps (trapz ((0, y0) :: ps)) fm (0, y0) fm ps, fm⟩ := by
  have hpw : List.Pairwise (· < ·) ((0 : ℚ) :: ps.map Prod.fst) := by
    rw [← List.chain'_iff_pairwise]
    simpa [StrictKeys] using hsk
  have hpw1 := List.pairwise_cons.1 hpw
  have hnodup : (((0, y0) :: ps).map Prod.fst).Nodup := by
    rw [List.map_cons]
    exact hpw.imp ne_of_lt
  have hloop : depletionGo ((0, y0) :: ps) (trapz ((0, y0) :: ps)) fm 0
      (ps.map Prod.fst) [(0, fm)] =
      some ([(0, fm)] ++ fuelSteps (trapz ((0, y0) :: ps)) fm (0, y0) fm ps) := by
    apply depletionGo_eq
    · intro p hp
      exact dictLookup_of_mem_of_nodup hnodup (List.mem_cons_of_mem _ hp)
    · simp [dictLookup]
    · simp [dictLookup]
    · intro p hp
      have := hpw1.1 p.1 (List.mem_map_of_mem Prod.fst hp)
      simp only [List.map_cons, List.map_nil, List.mem_singleton]
      exact fun hp0 => absurd (hp0 ▸ this) (lt_irrefl 0)
    · simpa using (List.nodup_cons.1 (by simpa using hnodup)).2
  unfold motorInit
  simp only [List.map_cons, listMax, truthyCurve, Bool.false_eq_true, if_false,
    truthyNum_some_iff.2 hfm, if_true, depletionLoop, Option.getD_some]
  rw [show dictInsert [] 0 fm = [(0, fm)] from rfl, hloop]
  simp

end LoopLemmas

section Claims

/-- Claim C2 (corrected): for every Motor constructed over a thrust curve with
at least two strictly increasing time keys, `total_impulse` equals the
trapezoidal-rule integral of the thrust samples (the sum over consecutive
samples of `(thrust[t_i] + thrust[t_{i-1}])/2 * (t_i - t_{i-1})`) and
`burn_time` equals the maximum time key. The claim's concrete figure is wrong:
the example curve `{0: 0, 1: 1000, 2: 500, 3: 0}` yields total impulse 1500,
not 1750 (see the counterexample). -/
theorem C2_impulse_and_burn_time (dm : ℚ) (tc : List (ℚ × ℚ))
    (fmc : Option (List (ℚ × ℚ))) (fm : Option ℚ) (m : Motor)
    (hlen : 2 ≤ tc.length) (hsk : StrictKeys tc)
    (hm : motorInit dm tc fmc fm = some m) :
    m.total_impulse = trapzSpecSum tc ∧
      m.burn_time ∈ tc.map Prod.fst ∧ ∀ t ∈ tc.map Prod.fst, t ≤ m.burn_time := by
  obtain ⟨h1, h2⟩ := motorInit_fields hm
  obtain ⟨hmem, hle⟩ := listMax_spec h2
  exact ⟨h1.trans (trapz_eq_trapzSpecSum tc), hmem, hle⟩

/-- Witness for C2 at the worked example: the hypotheses hold for
`exTc = {0: 0, 1: 1000, 2: 500, 3: 0}` and the conclusion follows. -/
theorem C2_impulse_and_burn_time_witness :
    2 ≤ exTc.length ∧ StrictKeys exTc ∧
      motorInit 1 exTc none none = some ⟨1, exTc, 1500, 3, [(0, 0), (3, 0)], 0⟩ ∧
      (1500 : ℚ) = trapzSpecSum exTc ∧
      ((3 : ℚ) ∈ exTc.map Prod.fst ∧ ∀ t ∈ exTc.map Prod.fst, t ≤ (3 : ℚ)) := by
  have hlen : 2 ≤ exTc.length := by norm_num [exTc]
  have hsk : StrictKeys exTc := by norm_num [StrictKeys, exTc, List.chain'_cons]
  have hm : motorInit 1 exTc none none =
      some ⟨1, exTc, 1500, 3, [(0, 0), (3, 0)], 0⟩ := by
    norm_num [motorInit, depletionLoop, depletionGo, dictLookup, dictInsert, trapz,
      listMax, truthyCurve, truthyNum, exTc, max_def]
  have h := C2_impulse_and_burn_time 1 exTc none none _ hlen hsk hm
  exact ⟨hlen, hsk, hm, h.1, h.2⟩

/-- Counterexample for C2: the example thrust curve's total impulse is 1500,
not the claimed 1750. -/
theorem C2_counterexample :
    motorInit 1 exTc none none = some ⟨1, exTc, 1500, 3, [(0, 0), (3, 0)], 0⟩ ∧
      (1500 : ℚ) ≠ 1750 := by
  constructor
  · norm_num [motorInit, depletionLoop, depletionGo, dictLookup, dictInsert, trapz,
      listMax, truthyCurve, truthyNum, exTc, max_def]
  · norm_num

/-- Claim C3 (code bug): the code does not guard the zero-total-impulse case.
On an all-zero thrust curve with a truthy fuel mass, the full-interval
trapezoidal integral is 0, yet construction completes and returns a Motor
(`isSome`) instead of failing fast with a validation error: the depletion loop
silently divides by the zero total impulse. -/
theorem C3_zero_impulse_no_guard :
    trapz [((0 : ℚ), (0 : ℚ)), (1, 0)] = 0 ∧
      (motorInit 1 [(0, 0), (1, 0)] none (some 2)).isSome = true := by
  constructor
  · norm_num [trapz]
  · norm_num [motorInit, depletionLoop, depletionGo, dictLookup, dictInsert, trapz,
      listMax, truthyCurve, truthyNum, max_def]

/-- Claim C6 (confirmed): a supplied fuel-mass curve containing time key 0 is
stored unchanged (its keys may differ from the thrust curve's), and
`fuel_mass` is the supplied curve's value at time 0, whatever the
`fuel_mass` argument was. Hypothesis `tc ≠ []` is required for
`max(thrust_curve.keys())` to be defined at all. -/
theorem C6_supplied_curve_passthrough (dm v : ℚ) (tc fmc : List (ℚ × ℚ))
    (fm_arg : Option ℚ) (htc : tc ≠ []) (hv : dictLookup fmc 0 = some v) :
    ∃ m, motorInit dm tc (some fmc) fm_arg = some m ∧
      m.fuel_mass_curve = fmc ∧ m.fuel_mass = v := by
  have hfmc : fmc ≠ [] := by
    intro h
    rw [h] at hv
    simp [dictLookup] at hv
  obtain ⟨p, rest, rfl⟩ := List.exists_cons_of_ne_nil htc
  unfold motorInit
  simp only [List.map_cons, listMax]
  have ht : truthyCurve (some fmc) = true := by
    simp [truthyCurve, hfmc]
  rw [ht]
  simp only [if_true, Option.getD_some, hv]
  exact ⟨_, rfl, rfl, rfl⟩

/-- Witness for C6: a supplied curve `{0: 3, 2: 1}` (keys differing from the
thrust curve's) is passed through unchanged and `fuel_mass = 3`, even though a
fuel-mass argument 99 was also supplied. -/
theorem C6_supplied_curve_passthrough_witness :
    exTc ≠ [] ∧ dictLookup [((0 : ℚ), (3 : ℚ)), (2, 1)] 0 = some 3 ∧
      (∃ m, motorInit 1 exTc (some [(0, 3), (2, 1)]) (some 99) = some m ∧
        m.fuel_mass_curve = [(0, 3), (2, 1)] ∧ m.fuel_mass = 3) := by
  have h1 : exTc ≠ [] := by simp [exTc]
  have h2 : dictLookup [((0 : ℚ), (3 : ℚ)), (2, 1)] 0 = some 3 := by
    norm_num [dictLookup]
  exact ⟨h1, h2, C6_supplied_curve_passthrough 1 3 exTc [(0, 3), (2, 1)] (some 99) h1 h2⟩

/-- Claim C7 (confirmed): the derived `Cd_A_rocket` is a single function of
Mach number; in the callable branch it evaluates the coefficient function at
the given Mach number and multiplies by `A_rocket`, and in the constant branch
it ignores the Mach argument and returns the constant times `A_rocket`. Both
branches have the same `ℚ → ℚ` signature by construction. -/
theorem C7_drag_area_function (rm : ℚ) (motor : Motor) (A h Ma c : ℚ)
    (f : ℚ → ℚ) :
    (rocketInit rm motor A (CdSpec.func f) h).Cd_A_rocket Ma = f Ma * A ∧
      (rocketInit rm motor A (CdSpec.const c) h).Cd_A_rocket Ma = c * A :=
  ⟨rfl, rfl⟩

/-- Claim C8 (confirmed): gravity resolution precedence. A truthy supplied
`local_gravity` is used as-is; otherwise a truthy latitude computes gravity
through the external collaborator from (latitude, altitude) (the source's
`altitude` parameter defaults to 0, modelled by passing 0); otherwise - and in
particular for latitude exactly 0 - the global constant `F_gravity` is used. -/
theorem C8_gravity_resolution (g : ℚ → ℚ → ℚ)
    (p T L e d lr alt ms wh : ℚ) (lat0 : Option ℚ) :
    (∀ v : ℚ, v ≠ 0 →
      (launchConditionsInit g p T L e d (some v) lr lat0 alt ms wh).local_gravity
        = v) ∧
    (∀ lat : ℚ, lat ≠ 0 →
      (launchConditionsInit g p T L e d none lr (some lat) alt ms wh).local_gravity
        = g lat alt) ∧
    (launchConditionsInit g p T L e d none lr (some 0) alt ms wh).local_gravity
      = F_gravity ∧
    (launchConditionsInit g p T L e d none lr none alt ms wh).local_gravity
      = F_gravity := by
  refine ⟨fun v hv => ?_, fun lat hlat => ?_, ?_, ?_⟩ <;>
    simp [launchConditionsInit, truthyNum, *]

/-- Witness for C8: with a concrete collaborator `g = fun lat alt => lat + alt`,
explicit gravity 5 wins; latitude 45 with altitude 1400 gives `g 45 1400`;
latitude exactly 0 falls back to the global constant. -/
theorem C8_gravity_resolution_witness :
    ((5 : ℚ) ≠ 0 ∧
      (launchConditionsInit (fun la al => la + al) 101325 20 5 90 0 (some 5)
        T_lapse_rate (some 45) 1400 0 0).local_gravity = 5) ∧
    ((45 : ℚ) ≠ 0 ∧
      (launchConditionsInit (fun la al => la + al) 101325 20 5 90 0 none
        T_lapse_rate (some 45) 1400 0 0).local_gravity = 45 + 1400) ∧
    (launchConditionsInit (fun la al => la + al) 101325 20 5 90 0 none
      T_lapse_rate (some 0) 1400 0 0).local_gravity = F_gravity := by
  have h := C8_gravity_resolution (fun la al => la + al) 101325 20 5 90 0
    T_lapse_rate 1400 0 0 (some 45)
  exact ⟨⟨by norm_num, h.1 5 (by norm_num)⟩,
    ⟨by norm_num, h.2.1 45 (by norm_num)⟩, h.2.2.1⟩

/-- Claim C9 (corrected): `max_retraction_rate` equals `max_deployment_rate`
when omitted and equals the supplied value when a truthy (nonzero) value is
supplied; but a supplied value of exactly 0 is falsy and also falls back to
`max_deployment_rate` (see the counterexample), so the claim's "equals the
supplied value when a distinct value is supplied" fails at 0. -/
theorem C9_retraction_default (n : ℤ) (a cd ang dep : ℚ) :
    (airbrakesInit n a cd ang dep none).max_retraction_rate = dep ∧
      (∀ v : ℚ, v ≠ 0 →
        (airbrakesInit n a cd ang dep (some v)).max_retraction_rate = v) ∧
      (airbrakesInit n a cd ang dep (some 0)).max_retraction_rate = dep := by
  refine ⟨?_, fun v hv => ?_, ?_⟩ <;> simp [airbrakesInit, truthyNum, *]

/-- Witness for C9: retraction rate omitted gives the deployment rate 5; a
supplied nonzero 10 is retained. -/
theorem C9_retraction_default_witness :
    (airbrakesInit 4 1 1 45 5 none).max_retraction_rate = 5 ∧
      ((10 : ℚ) ≠ 0 ∧
        (airbrakesInit 4 1 1 45 5 (some 10)).max_retraction_rate = 10) := by
  have h := C9_retraction_default 4 1 1 45 5
  exact ⟨h.1, by norm_num, h.2.1 10 (by norm_num)⟩

/-- Counterexample for C9: a supplied retraction rate of 0 is a distinct value
(0 ≠ 5) yet the stored rate is the deployment rate 5, not the supplied 0. -/
theorem C9_counterexample :
    (0 : ℚ) ≠ 5 ∧
      (airbrakesInit 4 1 1 45 5 (some 0)).max_retraction_rate = 5 := by
  norm_num [airbrakesInit, truthyNum]

/-- Claim C10 (confirmed): in the proportional-depletion branch over a thrust
curve with at least two samples, construction fails (the loop's first
iteration reads the seeded-at-0-only fuel dict at the absent key `t_0`,
Python's `KeyError`) exactly when the first time key `t_0` is not 0. -/
theorem C10_missing_key_failure (dm fm t0 y0 : ℚ) (p1 : ℚ × ℚ)
    (rest : List (ℚ × ℚ)) (hfm : fm ≠ 0) :
    motorInit dm ((t0, y0) :: p1 :: rest) none (some fm) = none ↔ t0 ≠ 0 := by
  unfold motorInit
  simp only [List.map_cons, listMax, truthyCurve, Bool.false_eq_true, if_false,
    truthyNum_some_iff.2 hfm, if_true, depletionLoop, Option.getD_some]
  constructor
  · intro h ht0
    subst ht0
    have hsome := depletionGo_isSome ((0, y0) :: p1 :: rest)
      (trapz ((0, y0) :: p1 :: rest)) fm (p1.1 :: rest.map Prod.fst) 0
      (dictInsert [] 0 fm)
      (by
        intro t ht
        simp only [List.map_cons]
        exact List.mem_cons_of_mem _ ht)
      (by simp)
      (by simp [dictInsert])
    rcases Option.isSome_iff_exists.1 hsome with ⟨fmc, hfmc⟩
    rw [hfmc] at h
    simp at h
  · intro ht0
    have hmiss : dictLookup (dictInsert [] 0 fm) t0 = none := by
      have : ¬(0 : ℚ) = t0 := fun hh => ht0 hh.symm
      simp [dictInsert, dictLookup, this]
    simp [depletionGo, hmiss]

/-- Witness for C10: first key 5 ≠ 0 makes construction fail; the example
curve with first key 0 constructs successfully. -/
theorem C10_missing_key_failure_witness :
    (2 : ℚ) ≠ 0 ∧
      motorInit 1 [((5 : ℚ), (0 : ℚ)), (6, 1000)] none (some 2) = none ∧
      motorInit 1 exTc none (some 2) ≠ none := by
  refine ⟨by norm_num,
    (C10_missing_key_failure 1 2 5 0 (6, 1000) [] (by norm_num)).2 (by norm_num), ?_⟩
  intro h
  exact (C10_missing_key_failure 1 2 0 0 (1, 1000) [(2, 500), (3, 0)]
    (by norm_num)).1 h rfl

/-- Claim C1 (corrected): in the derived-fuel-curve branch (no fuel-mass curve,
nonzero fuel mass `fm`, strictly increasing time keys with first key 0, nonzero
total impulse), the curve's value at time 0 is `fm` and each later sample obeys
`curve[t_i] = curve[t_{i-1}] - (thrust[t_i] + thrust[t_{i-1}])/2 * (t_i -
t_{i-1}) / total_impulse * fm`. The claim's concrete figure is wrong: for the
example curve the total impulse is 1500, not 1750, so the value at time 1 is
`2 - (0+1000)/2*1/1500*2 = 4/3` (see the counterexample). -/
theorem C1_depletion_recurrence (dm fm y0 : ℚ) (ps : List (ℚ × ℚ))
    (hsk : StrictKeys ((0, y0) :: ps)) (hfm : fm ≠ 0)
    (hI : trapz ((0, y0) :: ps) ≠ 0) :
    ∃ m, motorInit dm ((0, y0) :: ps) none (some fm) = some m ∧
      dictLookup m.fuel_mass_curve 0 = some fm ∧
      ∀ i : ℕ, i + 1 < ((0, y0) :: ps).length →
        dictLookup m.fuel_mass_curve ((((0, y0) :: ps).getD (i + 1) (0, 0)).1) =
          some ((dictLookup m.fuel_mass_curve
              ((((0, y0) :: ps).getD i (0, 0)).1)).getD 0 -
            ((((0, y0) :: ps).getD (i + 1) (0, 0)).2 +
                (((0, y0) :: ps).getD i (0, 0)).2) / 2 *
              ((((0, y0) :: ps).getD (i + 1) (0, 0)).1 -
                (((0, y0) :: ps).getD i (0, 0)).1) / m.total_impulse * fm) := by
  refine ⟨⟨dm, (0, y0) :: ps, trapz ((0, y0) :: ps),
    (ps.map Prod.fst).foldl max 0,
    (0, fm) :: fuelSteps (trapz ((0, y0) :: ps)) fm (0, y0) fm ps, fm⟩,
    motorInit_derived_curve dm fm y0 ps hsk hfm, ?_, ?_⟩
  · simp [dictLookup]
  · intro i hi
    have hpw : List.Pairwise (· < ·) (((0, y0) :: ps).map Prod.fst) := by
      rw [← List.chain'_iff_pairwise]
      exact hsk
    have hnodup : ((((0, y0) :: ps) : List (ℚ × ℚ)).map Prod.fst).Nodup :=
      hpw.imp ne_of_lt
    have hmapfst :
        (((0, fm) :: fuelSteps (trapz ((0, y0) :: ps)) fm (0, y0) fm ps).map
          Prod.fst) = ((0, y0) :: ps).map Prod.fst := by
      simp [fuelSteps_map_fst]
    have hGnodup :
        ((((0, fm) :: fuelSteps (trapz ((0, y0) :: ps)) fm (0, y0) fm ps)).map
          Prod.fst).Nodup := by
      rw [hmapfst]
      exact hnodup
    have hlen :
        (((0, fm) :: fuelSteps (trapz ((0, y0) :: ps)) fm (0, y0) fm ps)).length =
          ((0, y0) :: ps).length := by
      simpa using congrArg List.length hmapfst
    have hkey : ∀ j : ℕ,
        ((((0, fm) :: fuelSteps (trapz ((0, y0) :: ps)) fm (0, y0) fm ps)).getD j
          ((0 : ℚ), (0 : ℚ))).1 = (((0, y0) :: ps).getD j (0, 0)).1 := by
      intro j
      rw [← map_fst_getD _ j ((0 : ℚ), (0 : ℚ)), ← map_fst_getD _ j ((0 : ℚ), (0 : ℚ)),
        hmapfst]
    have hi1 :
        i + 1 < (((0, fm) :: fuelSteps (trapz ((0, y0) :: ps)) fm (0, y0) fm ps)).length := by
      rw [hlen]
      exact hi
    have hi0 :
        i < (((0, fm) :: fuelSteps (trapz ((0, y0) :: ps)) fm (0, y0) fm ps)).length :=
      Nat.lt_of_succ_lt hi1
    have hlk1 := dictLookup_getD_of_nodup hGnodup hi1 ((0 : ℚ), (0 : ℚ))
    have hlk0 := dictLookup_getD_of_nodup hGnodup hi0 ((0 : ℚ), (0 : ℚ))
    show dictLookup ((0, fm) :: fuelSteps (trapz ((0, y0) :: ps)) fm (0, y0) fm ps)
        ((((0, y0) :: ps).getD (i + 1) (0, 0)).1) = _
    rw [← hkey (i + 1), ← hkey i, hlk1, hlk0]
    simp only [Option.getD_some]
    have hrec := fuelSteps_getD_recurrence (trapz ((0, y0) :: ps)) fm ps 0 y0 fm i hi
    rw [← hkey (i + 1), ← hkey i] at hrec
    exact congrArg some hrec

/-- Witness for C1 at the worked example curve with fuel mass 2. -/
theorem C1_depletion_recurrence_witness :
    StrictKeys exTc ∧ (2 : ℚ) ≠ 0 ∧ trapz exTc ≠ 0 ∧
      (∃ m, motorInit 1 exTc none (some 2) = some m ∧
        dictLookup m.fuel_mass_curve 0 = some 2 ∧
        ∀ i : ℕ, i + 1 < exTc.length →
          dictLookup m.fuel_mass_curve ((exTc.getD (i + 1) (0, 0)).1) =
            some ((dictLookup m.fuel_mass_curve ((exTc.getD i (0, 0)).1)).getD 0 -
              ((exTc.getD (i + 1) (0, 0)).2 + (exTc.getD i (0, 0)).2) / 2 *
                ((exTc.getD (i + 1) (0, 0)).1 - (exTc.getD i (0, 0)).1) /
                  m.total_impulse * 2)) := by
  have hsk : StrictKeys exTc := by norm_num [StrictKeys, exTc, List.chain'_cons]
  have h2 : (2 : ℚ) ≠ 0 := by norm_num
  have hI : trapz exTc ≠ 0 := by norm_num [trapz, exTc]
  exact ⟨hsk, h2, hI,
    C1_depletion_recurrence 1 2 0 [(1, 1000), (2, 500), (3, 0)] hsk h2 hI⟩

/-- Counterexample for C1: the derived fuel-mass value at time 1 for the
example curve with fuel mass 2 is `4/3` (total impulse 1500), not the claimed
`2 - (0+1000)/2*1/1750*2 = 10/7`. -/
theorem C1_counterexample :
    motorInit 1 exTc none (some 2) =
      some ⟨1, exTc, 1500, 3, [(0, 2), (1, 4/3), (2, 1/3), (3, 0)], 2⟩ ∧
      dictLookup [((0 : ℚ), (2 : ℚ)), (1, 4/3), (2, 1/3), (3, 0)] 1 = some (4/3) ∧
      (4/3 : ℚ) ≠ 2 - (0 + 1000) / 2 * 1 / 1750 * 2 := by
  refine ⟨?_, ?_, by norm_num⟩
  · norm_num [motorInit, depletionLoop, depletionGo, dictLookup, dictInsert, trapz,
      listMax, truthyCurve, truthyNum, exTc, max_def]
  · norm_num [dictLookup]

/-- Claim C4 (corrected): the fuel-mass curve's keys equal the thrust curve's
keys only in the derived branch (with first key 0 and strictly increasing
keys); a supplied curve is kept with its own keys (claim C6), and the
no-fuel-information branch always stores the two-point curve
`{0: 0, burn_time: 0}` whatever the thrust curve's interior keys (see the
counterexample). -/
theorem C4_fuel_curve_keys (dm fm y0 : ℚ) (ps : List (ℚ × ℚ))
    (hsk : StrictKeys ((0, y0) :: ps)) (hfm : fm ≠ 0) :
    (∃ m, motorInit dm ((0, y0) :: ps) none (some fm) = some m ∧
      m.fuel_mass_curve.map Prod.fst = ((0, y0) :: ps).map Prod.fst) ∧
    ∀ (dm' : ℚ) (tc : List (ℚ × ℚ)) (m : Motor),
      motorInit dm' tc none none = some m →
      m.fuel_mass_curve.map Prod.fst =
        if m.burn_time = 0 then [0] else [0, m.burn_time] := by
  constructor
  · exact ⟨_, motorInit_derived_curve dm fm y0 ps hsk hfm,
      by simp [fuelSteps_map_fst]⟩
  · intro dm' tc m hm
    unfold motorInit at hm
    cases hmax : listMax (tc.map Prod.fst) with
    | none =>
      rw [hmax] at hm
      simp at hm
    | some bt =>
      rw [hmax] at hm
      simp only [truthyCurve, Bool.false_eq_true, if_false, truthyNum,
        Option.some_inj] at hm
      subst hm
      by_cases hbt : bt = 0
      · subst hbt
        simp [dictInsert]
      · have : ¬(0 : ℚ) = bt := fun h => hbt h.symm
        simp [dictInsert, this, hbt]

/-- Witness for C4 at the worked example curve with fuel mass 2. -/
theorem C4_fuel_curve_keys_witness :
    StrictKeys exTc ∧ (2 : ℚ) ≠ 0 ∧
      (∃ m, motorInit 1 exTc none (some 2) = some m ∧
        m.fuel_mass_curve.map Prod.fst = exTc.map Prod.fst) := by
  have hsk : StrictKeys exTc := by norm_num [StrictKeys, exTc, List.chain'_cons]
  have h2 : (2 : ℚ) ≠ 0 := by norm_num
  exact ⟨hsk, h2, (C4_fuel_curve_keys 1 2 0 [(1, 1000), (2, 500), (3, 0)] hsk h2).1⟩

/-- Counterexample for C4: with no fuel information the stored curve for the
example thrust curve is `{0: 0, 3: 0}`, which is missing the thrust curve's
key 1 - the curves are not defined at the same time keys. -/
theorem C4_counterexample :
    motorInit 1 exTc none none = some ⟨1, exTc, 1500, 3, [(0, 0), (3, 0)], 0⟩ ∧
      (1 : ℚ) ∈ exTc.map Prod.fst ∧
      (1 : ℚ) ∉ ([((0 : ℚ), (0 : ℚ)), (3, 0)].map Prod.fst) := by
  refine ⟨?_, by norm_num [exTc], by norm_num⟩
  norm_num [motorInit, depletionLoop, depletionGo, dictLookup, dictInsert, trapz,
    listMax, truthyCurve, truthyNum, exTc, max_def]

/-- Claim C5 (corrected): with a positive fuel mass (the claim's mere
"nonzero" is not enough - a negative fuel mass makes the derived curve
increase, see the counterexample), nonnegative thrust values, first key 0,
strictly increasing keys and nonzero total impulse, the derived curve starts
at `fm` and its values are non-increasing along consecutive samples. -/
theorem C5_fuel_curve_monotone (dm fm y0 : ℚ) (ps : List (ℚ × ℚ))
    (hsk : StrictKeys ((0, y0) :: ps)) (hfm : 0 < fm)
    (hI : trapz ((0, y0) :: ps) ≠ 0)
    (hvals : ∀ p ∈ (0, y0) :: ps, 0 ≤ p.2) :
    ∃ m, motorInit dm ((0, y0) :: ps) none (some fm) = some m ∧
      dictLookup m.fuel_mass_curve 0 = some fm ∧
      List.Chain' (fun a b : ℚ × ℚ => b.2 ≤ a.2) m.fuel_mass_curve := by
  have hI0 : 0 < trapz ((0, y0) :: ps) :=
    lt_of_le_of_ne (trapz_nonneg _ hsk hvals) (Ne.symm hI)
  refine ⟨_, motorInit_derived_curve dm fm y0 ps hsk hfm.ne', ?_, ?_⟩
  · simp [dictLookup]
  · exact fuelSteps_chain _ fm hI0 hfm ps 0 y0 fm (hvals (0, y0) (by simp))
      (fun q hq => hvals q (List.mem_cons_of_mem _ hq))
      (by simpa [StrictKeys] using hsk)

/-- Witness for C5 at the worked example curve with fuel mass 2. -/
theorem C5_fuel_curve_monotone_witness :
    StrictKeys exTc ∧ (0 : ℚ) < 2 ∧ trapz exTc ≠ 0 ∧ (∀ p ∈ exTc, 0 ≤ p.2) ∧
      (∃ m, motorInit 1 exTc none (some 2) = some m ∧
        dictLookup m.fuel_mass_curve 0 = some 2 ∧
        List.Chain' (fun a b : ℚ × ℚ => b.2 ≤ a.2) m.fuel_mass_curve) := by
  have hsk : StrictKeys exTc := by norm_num [StrictKeys, exTc, List.chain'_cons]
  have h2 : (0 : ℚ) < 2 := by norm_num
  have hI : trapz exTc ≠ 0 := by norm_num [trapz, exTc]
  have hv : ∀ p ∈ exTc, 0 ≤ p.2 := by
    intro p hp
    fin_cases hp <;> norm_num
  exact ⟨hsk, h2, hI, hv,
    C5_fuel_curve_monotone 1 2 0 [(1, 1000), (2, 500), (3, 0)] hsk h2 hI hv⟩

/-- Counterexample for C5: fuel mass -1 is nonzero and all the claim's other
hypotheses hold for the example curve, yet the derived curve increases from -1
at time 0 to -2/3 at time 1. -/
theorem C5_counterexample :
    motorInit 1 exTc none (some (-1)) =
      some ⟨1, exTc, 1500, 3, [(0, -1), (1, -2/3), (2, -1/6), (3, 0)], -1⟩ ∧
      ((-1 : ℚ) ≠ 0 ∧ trapz exTc ≠ 0 ∧
        (exTc.all fun p => decide (0 ≤ p.2)) = true) ∧
      ¬((-2/3 : ℚ) ≤ -1) := by
  refine ⟨?_, ⟨by norm_num, by norm_num [trapz, exTc], ?_⟩, by norm_num⟩
  · norm_num [motorInit, depletionLoop, depletionGo, dictLookup, dictInsert, trapz,
      listMax, truthyCurve, truthyNum, exTc, max_def]
  · norm_num [exTc]

end Claims

end RocketFlightSim
